import Mathlib

/-!
Verification of the meme-video generator's scheduling and queue core
(`scheduler.js`): the publish-schedule calculator `calculateSchedule`,
the pending-work queue (`getPendingVideos`, `deleteVideo`) and the
upload orchestrator `uploadAllPending`.

Times are modelled as milliseconds since the Unix epoch, exactly as a
JavaScript `Date` stores them.  The code reads the wall clock twice
(`new Date()` at the top of `calculateSchedule` and `Date.now()` inside
its loop); the embedding threads a single frozen `now` through both
reads, which is the standard deterministic-clock model of the spec.
-/

def msPerMinute : Nat := 60000

def msPerHour : Nat := 3600000

def msPerDay : Nat := 86400000

/-- `CONFIG.peakHoursEST.start` in `scheduler.js` (6 PM EST). -/
def peakStart : Nat := 18

/-- `CONFIG.gapMinutes` in `scheduler.js`. -/
def gapMinutes : Nat := 30

/-- `const estOffset = -5` in `calculateSchedule` (fixed EST offset, no DST). -/
def estOffset : Int := -5

/-- `now.getUTCHours()` for an epoch-millisecond timestamp. -/
def utcHour (t : Nat) : Nat := t / msPerHour % 24

/-- `const estHour = (utcHour + estOffset + 24) % 24` in `calculateSchedule`. -/
def estHour (t : Nat) : Int := ((utcHour t : Int) + estOffset + 24) % 24

/-- Midnight (UTC) of the UTC day containing `t`. -/
def startOfUTCDay (t : Nat) : Nat := t / msPerDay * msPerDay

/-- `d.setUTCHours(h, m, 0, 0)`: keep the UTC date, set hour and minute,
zero the seconds and milliseconds. -/
def setUTCHours (t h m : Nat) : Nat := startOfUTCDay t + h * msPerHour + m * msPerMinute

/-- `const scheduleForTomorrow = estHour >= CONFIG.peakHoursEST.start`. -/
def scheduleForTomorrow (now : Nat) : Bool := decide (estHour now ≥ (peakStart : Int))

/-- `const slotMinutes = i * CONFIG.gapMinutes`. -/
def slotMinutes (i : Nat) : Nat := i * gapMinutes

/-- `const targetUTCHour = (targetESTHour - estOffset + Math.floor(slotMinutes / 60)) % 24`. -/
def targetUTCHour (i : Nat) : Nat :=
  (((peakStart : Int) - estOffset + ((slotMinutes i / 60 : Nat) : Int)) % 24).toNat

/-- `const targetUTCMinutes = slotMinutes % 60`. -/
def targetUTCMinutes (i : Nat) : Nat := slotMinutes i % 60

/-- The slot for index `i` after `publishTime.setUTCHours(...)`, before the
15-minute-lead adjustment: `new Date(now)`, advanced one UTC day when
`scheduleForTomorrow`, with hour/minute set to the target values. -/
def nominalSlot (now i : Nat) : Nat :=
  setUTCHours (if scheduleForTomorrow now then now + msPerDay else now)
    (targetUTCHour i) (targetUTCMinutes i)

/-- `const minTime = new Date(Date.now() + 15 * 60 * 1000)`. -/
def minTime (now : Nat) : Nat := now + 15 * msPerMinute

/-- One loop iteration of `calculateSchedule`: the nominal slot, pushed one
day later when it falls before `minTime` (`if (publishTime < minTime)
publishTime.setUTCDate(publishTime.getUTCDate() + 1)`). -/
def scheduleSlot (now i : Nat) : Nat :=
  if nominalSlot now i < minTime now then nominalSlot now i + msPerDay
  else nominalSlot now i

/-- `calculateSchedule(count)` of `scheduler.js`, with the frozen clock
made an explicit parameter. -/
def calculateSchedule (count now : Nat) : List Nat :=
  (List.range count).map (scheduleSlot now)

/-- Minute-of-hour component of a timestamp (`d.getUTCMinutes()`). -/
def minuteOfHour (t : Nat) : Nat := t / msPerMinute % 60

/-- Nominal minutes-past-UTC-midnight of slot `i` (hour and minute part
written by `setUTCHours`). -/
def todMinutes (i : Nat) : Nat := targetUTCHour i * 60 + targetUTCMinutes i

/-- EST civil-day index of a timestamp: the EST clock reads UTC minus five
hours, so the EST date of `t` is the UTC date of `t - 5h` (used for
timestamps at or after 5:00 UTC of day zero, where the subtraction does
not truncate). -/
def estDay (t : Nat) : Nat := (t - 5 * msPerHour) / msPerDay

/-! ### Basic facts about the schedule arithmetic -/

theorem utcHour_lt (t : Nat) : utcHour t < 24 :=
  Nat.mod_lt _ (by decide)

theorem scheduleForTomorrow_eq_false_iff (now : Nat) :
    scheduleForTomorrow now = false ↔ estHour now < (peakStart : Int) := by
  simp [scheduleForTomorrow, not_le]

theorem scheduleForTomorrow_eq_true_iff (now : Nat) :
    scheduleForTomorrow now = true ↔ (peakStart : Int) ≤ estHour now := by
  simp [scheduleForTomorrow]

/-- When the run is anchored to today, the current UTC hour is between 5 and 22. -/
theorem utcHour_bounds_of_today (now : Nat) (h : scheduleForTomorrow now = false) :
    5 ≤ utcHour now ∧ utcHour now ≤ 22 := by
  rw [scheduleForTomorrow_eq_false_iff] at h
  have h24 := utcHour_lt now
  unfold estHour peakStart estOffset at h
  omega

/-- When the run is anchored to tomorrow, the current UTC hour is 23 or below 5. -/
theorem utcHour_of_tomorrow (now : Nat) (h : scheduleForTomorrow now = true) :
    utcHour now = 23 ∨ utcHour now < 5 := by
  rw [scheduleForTomorrow_eq_true_iff] at h
  have h24 := utcHour_lt now
  unfold estHour peakStart estOffset at h
  omega

theorem targetUTCHour_eq (i : Nat) :
    targetUTCHour i = (23 + slotMinutes i / 60) % 24 := by
  unfold targetUTCHour peakStart estOffset
  omega

theorem targetUTCHour_lt (i : Nat) : targetUTCHour i < 24 := by
  rw [targetUTCHour_eq]; exact Nat.mod_lt _ (by decide)

theorem targetUTCMinutes_lt (i : Nat) : targetUTCMinutes i < 60 :=
  Nat.mod_lt _ (by decide)

/-- The nominal slot decomposed as midnight of the anchor day plus its
minutes-past-midnight. -/
theorem nominalSlot_eq (now i : Nat) :
    nominalSlot now i =
      startOfUTCDay (if scheduleForTomorrow now then now + msPerDay else now) +
        todMinutes i * msPerMinute := by
  unfold nominalSlot setUTCHours todMinutes msPerHour msPerMinute
  ring

theorem startOfUTCDay_le (t : Nat) : startOfUTCDay t ≤ t :=
  Nat.div_mul_le_self t msPerDay

theorem lt_startOfUTCDay_add (t : Nat) : t < startOfUTCDay t + msPerDay := by
  unfold startOfUTCDay msPerDay
  omega

theorem startOfUTCDay_add_msPerDay (t : Nat) :
    startOfUTCDay (t + msPerDay) = startOfUTCDay t + msPerDay := by
  unfold startOfUTCDay msPerDay
  omega

/-- The mod-24 hour arithmetic in terms of the day-start remainder. -/
theorem utcHour_eq_mod_div (t : Nat) : utcHour t = t % msPerDay / msPerHour := by
  unfold utcHour msPerDay msPerHour
  omega

theorem calculateSchedule_length (count now : Nat) :
    (calculateSchedule count now).length = count := by
  simp [calculateSchedule]

theorem calculateSchedule_getD (count now i : Nat) (h : i < count) :
    (calculateSchedule count now).getD i 0 = scheduleSlot now i := by
  unfold calculateSchedule
  rw [List.getD_eq_getElem?_getD, List.getElem?_map, List.getElem?_range h]
  rfl

theorem mem_calculateSchedule (count now t : Nat) :
    t ∈ calculateSchedule count now ↔ ∃ i < count, scheduleSlot now i = t := by
  simp [calculateSchedule, List.mem_range]

theorem calculateSchedule_headI (count now : Nat) (h : 1 ≤ count) :
    (calculateSchedule count now).headI = scheduleSlot now 0 := by
  cases count with
  | zero => omega
  | succ n =>
      unfold calculateSchedule
      rw [List.range_succ_eq_map, List.map_cons, List.headI]

/-! ### Minimum lead time (claim C3) -/

theorem minTime_le_nominal_add_day (now i : Nat) :
    minTime now ≤ nominalSlot now i + msPerDay := by
  rw [nominalSlot_eq]
  cases hb : scheduleForTomorrow now with
  | true =>
      simp only [if_true]
      rw [startOfUTCDay_add_msPerDay]
      have hlt := lt_startOfUTCDay_add now
      unfold minTime msPerDay msPerMinute at *
      omega
  | false =>
      simp only [Bool.false_eq_true, if_false]
      have h22 := (utcHour_bounds_of_today now hb).2
      rw [utcHour_eq_mod_div] at h22
      have hq : msPerDay * (now / msPerDay) + now % msPerDay = now := Nat.div_add_mod now msPerDay
      unfold startOfUTCDay minTime msPerDay msPerHour msPerMinute at *
      omega

theorem minTime_le_scheduleSlot (now i : Nat) : minTime now ≤ scheduleSlot now i := by
  unfold scheduleSlot
  split
  case isTrue h => exact minTime_le_nominal_add_day now i
  case isFalse h => omega

/-- Claim C3: every slot produced by `calculateSchedule` is at least
`minLeadMinutes` (15 minutes) after the frozen clock reading `now`, and a
nominal slot that falls before `now + 15 min` is advanced by exactly one
full day, preserving its UTC hour and minute components. -/
theorem calculateSchedule_min_lead (count now : Nat) :
    (∀ t ∈ calculateSchedule count now, minTime now ≤ t) ∧
    (∀ i, nominalSlot now i < minTime now →
      scheduleSlot now i = nominalSlot now i + msPerDay ∧
      utcHour (scheduleSlot now i) = utcHour (nominalSlot now i) ∧
      minuteOfHour (scheduleSlot now i) = minuteOfHour (nominalSlot now i)) := by
  constructor
  · intro t ht
    rcases (mem_calculateSchedule count now t).mp ht with ⟨i, _, hi⟩
    rw [← hi]
    exact minTime_le_scheduleSlot now i
  · intro i hlt
    have hs : scheduleSlot now i = nominalSlot now i + msPerDay := by
      unfold scheduleSlot
      rw [if_pos hlt]
    refine ⟨hs, ?_, ?_⟩
    · rw [hs]; unfold utcHour msPerDay msPerHour; omega
    · rw [hs]; unfold minuteOfHour msPerDay msPerMinute; omega

theorem calculateSchedule_min_lead_witness :
    minTime 0 ≤ 169200000 :=
  (calculateSchedule_min_lead 1 0).1 169200000 (by decide)

/-! ### Whole-minute alignment (claim C10) -/

/-- Claim C10: every slot returned by `calculateSchedule` is aligned to a
whole minute: its milliseconds component (`t % 1000`) and its seconds
component (`t / 1000 % 60`) are both zero. -/
theorem calculateSchedule_minute_aligned (count now : Nat) :
    ∀ t ∈ calculateSchedule count now, t % 1000 = 0 ∧ t / 1000 % 60 = 0 := by
  intro t ht
  rcases (mem_calculateSchedule count now t).mp ht with ⟨i, _, hi⟩
  have h : t % msPerMinute = 0 := by
    rw [← hi]
    unfold scheduleSlot
    split <;>
      (rw [nominalSlot_eq]; unfold startOfUTCDay msPerDay msPerMinute; omega)
  unfold msPerMinute at h
  omega

theorem calculateSchedule_minute_aligned_witness :
    169200000 % 1000 = 0 ∧ 169200000 / 1000 % 60 = 0 :=
  calculateSchedule_minute_aligned 1 0 169200000 (by decide)

/-! ### Length, gaps, and failure of strict monotonicity (claim C2) -/

/-- Claim C2, counterexample: invoked at 23:00:00.000 UTC of day 0 (18:00
EST, so the batch anchors to tomorrow) with three pending items, the
returned slots are 23:00 and 23:30 UTC of day 1 followed by 00:00 UTC of
day 1 — the third slot's hour computation wraps modulo 24, so the sequence
is not strictly increasing and consecutive slots are not separated by
`gapMinutes`. -/
theorem calculateSchedule_not_strictMono_cex :
    calculateSchedule 3 82800000 = [169200000, 171000000, 86400000] ∧
    ¬ (calculateSchedule 3 82800000).getD 1 0 < (calculateSchedule 3 82800000).getD 2 0 ∧
    ¬ (calculateSchedule 3 82800000).getD 2 0 =
        (calculateSchedule 3 82800000).getD 1 0 + gapMinutes * msPerMinute := by
  refine ⟨by decide, by decide, by decide⟩

/-- Claim C2 as amended: `calculateSchedule` always returns exactly `count`
timestamps, but the strict-increase/fixed-gap property only holds between
consecutive indices whose nominal minutes-past-midnight actually advance by
`gapMinutes` (the hour field is computed modulo 24, so a slot crossing UTC
midnight wraps to the start of the same anchor day) and whose earlier
nominal slot is not hit by the minimum-lead adjustment (which can push an
early slot one day past a later one).  Under those two guards consecutive
slots differ by exactly `gapMinutes` minutes and are strictly increasing. -/
theorem calculateSchedule_length_and_gap (count now i : Nat)
    (h1 : i + 1 < count)
    (hwrap : todMinutes (i + 1) = todMinutes i + gapMinutes)
    (hlead : minTime now ≤ nominalSlot now i) :
    (calculateSchedule count now).length = count ∧
    (calculateSchedule count now).getD (i + 1) 0 =
      (calculateSchedule count now).getD i 0 + gapMinutes * msPerMinute ∧
    (calculateSchedule count now).getD i 0 <
      (calculateSchedule count now).getD (i + 1) 0 := by
  have hnom : nominalSlot now (i + 1) = nominalSlot now i + gapMinutes * msPerMinute := by
    rw [nominalSlot_eq, nominalSlot_eq, hwrap]
    ring
  have hs1 : scheduleSlot now i = nominalSlot now i := by
    unfold scheduleSlot
    rw [if_neg (by omega)]
  have hs2 : scheduleSlot now (i + 1) = nominalSlot now (i + 1) := by
    unfold scheduleSlot
    rw [if_neg (by unfold gapMinutes msPerMinute at hnom; omega)]
  rw [calculateSchedule_getD count now i (by omega),
    calculateSchedule_getD count now (i + 1) h1]
  refine ⟨calculateSchedule_length count now, ?_, ?_⟩
  · rw [hs1, hs2, hnom]
  · rw [hs1, hs2, hnom]
    unfold gapMinutes msPerMinute
    omega

theorem calculateSchedule_length_and_gap_witness :
    (calculateSchedule 2 43200000).length = 2 ∧
    (calculateSchedule 2 43200000).getD 1 0 =
      (calculateSchedule 2 43200000).getD 0 0 + gapMinutes * msPerMinute ∧
    (calculateSchedule 2 43200000).getD 0 0 <
      (calculateSchedule 2 43200000).getD 1 0 :=
  calculateSchedule_length_and_gap 2 43200000 0 (by decide) (by decide) (by decide)

/-! ### Anchor-day selection (claim C4) -/

/-- Claim C4, counterexample: at 22:50 UTC of day 0 the EST hour is 17,
strictly before `peakStartHour`, so the claim requires the first slot to
fall on today's EST date; but the nominal 18:00-EST slot (23:00 UTC) is
only 10 minutes away, the minimum-lead adjustment fires, and the first
returned slot lands on tomorrow's EST date instead. -/
theorem calculateSchedule_anchor_day_cex :
    estHour 82200000 < (peakStart : Int) ∧
    estDay ((calculateSchedule 1 82200000).headI) = estDay 82200000 + 1 := by
  constructor
  · decide
  · decide

/-- Claim C4 as amended: with at least one slot requested, (a) if the
current EST hour is before `peakStartHour` and the nominal first slot is at
least the minimum lead after `now`, the first returned slot falls on
today's EST date; (b) if the current EST hour is at or past
`peakStartHour` and the current UTC hour is at least 5 (so the current UTC
and EST dates coincide), the first returned slot falls on tomorrow's EST
date.  (Without guard (a) the lead adjustment can push the first slot to
tomorrow; without guard (b) — i.e. between 00:00 and 05:00 UTC — the first
slot lands two EST days after the current EST date.) -/
theorem calculateSchedule_anchor_day (count now : Nat) (hc : 1 ≤ count) :
    (estHour now < (peakStart : Int) → minTime now ≤ nominalSlot now 0 →
      estDay ((calculateSchedule count now).headI) = estDay now) ∧
    ((peakStart : Int) ≤ estHour now → 5 ≤ utcHour now →
      estDay ((calculateSchedule count now).headI) = estDay now + 1) := by
  rw [calculateSchedule_headI count now hc]
  have h0 : targetUTCHour 0 = 23 := by decide
  have m0 : targetUTCMinutes 0 = 0 := by decide
  have htod : todMinutes 0 = 1380 := by rw [todMinutes, h0, m0]
  constructor
  · intro hest hlead
    have hb : scheduleForTomorrow now = false := by
      rw [scheduleForTomorrow_eq_false_iff]; exact hest
    have h5 := (utcHour_bounds_of_today now hb).1
    rw [utcHour_eq_mod_div] at h5
    have hnom : nominalSlot now 0 = startOfUTCDay now + todMinutes 0 * msPerMinute := by
      rw [nominalSlot_eq, hb]
      simp only [Bool.false_eq_true, if_false]
    have hs : scheduleSlot now 0 = nominalSlot now 0 := by
      unfold scheduleSlot
      rw [if_neg (by omega)]
    rw [hs, hnom, htod]
    rw [hnom, htod] at hlead
    unfold estDay minTime startOfUTCDay msPerDay msPerHour msPerMinute at *
    omega
  · intro hest h5
    have hb : scheduleForTomorrow now = true := by
      rw [scheduleForTomorrow_eq_true_iff]; exact hest
    have h23 : utcHour now = 23 := by
      rcases utcHour_of_tomorrow now hb with h | h
      · exact h
      · omega
    rw [utcHour_eq_mod_div] at h23
    have hnom : nominalSlot now 0 = startOfUTCDay now + msPerDay + todMinutes 0 * msPerMinute := by
      rw [nominalSlot_eq, hb]
      simp only [if_true]
      rw [startOfUTCDay_add_msPerDay]
    have hs : scheduleSlot now 0 = nominalSlot now 0 := by
      unfold scheduleSlot
      rw [if_neg ?_]
      rw [hnom, htod]
      have hlt := lt_startOfUTCDay_add now
      unfold minTime startOfUTCDay msPerDay msPerMinute at *
      omega
    rw [hs, hnom, htod]
    unfold estDay startOfUTCDay msPerDay msPerHour msPerMinute at *
    omega

theorem calculateSchedule_anchor_day_witness :
    estDay ((calculateSchedule 1 43200000).headI) = estDay 43200000 ∧
    estDay ((calculateSchedule 1 82800000).headI) = estDay 82800000 + 1 :=
  ⟨(calculateSchedule_anchor_day 1 43200000 (by decide)).1 (by decide) (by decide),
   (calculateSchedule_anchor_day 1 82800000 (by decide)).2 (by decide) (by decide)⟩

/-! ### The pending-work queue -/

/-- JS `String.prototype.endsWith`, as a test on the character sequences. -/
def jsEndsWith (s suffix : String) : Bool := List.isSuffixOf suffix.data s.data

/-- JS `String.prototype.startsWith`, as a test on the character sequences. -/
def jsStartsWith (s pre : String) : Bool := List.isPrefixOf pre.data s.data

/-- One entry of `CONFIG.outputDir`: its file name and its filesystem
modification time (`fs.statSync(..).mtime`, epoch milliseconds). -/
structure FileEntry where
  name : String
  mtime : Nat
deriving DecidableEq, Repr

/-- The filesystem state the scheduler touches: the contents of
`CONFIG.outputDir`, or `none` when that directory does not exist. -/
structure FS where
  output : Option (List FileEntry)
deriving DecidableEq, Repr

/-- `CONFIG.outputDir`, the storage location of the pending-work queue. -/
def outputDir : String := "output"

/-- `path.join(dir, f)`. -/
def joinPath (dir f : String) : String := dir ++ "/" ++ f

/-- The full path of a queue entry, `path.join(CONFIG.outputDir, f)`. -/
def entryPath (f : FileEntry) : String := joinPath outputDir f.name

/-- `getPendingVideos()` of `scheduler.js`: `[]` when the output directory
does not exist, otherwise the directory listing filtered to names ending
in `.mp4`, joined onto the directory and sorted by modification time
ascending (`.sort((a, b) => mtime(a) - mtime(b))`). -/
def getPendingVideos (fs : FS) : List String :=
  match fs.output with
  | none => []
  | some files =>
      ((files.filter (fun f => jsEndsWith f.name ".mp4")).insertionSort
          (fun a b => a.mtime ≤ b.mtime)).map entryPath

/-- `fs.existsSync(videoPath)` against the modelled output directory. -/
def existsSync (fs : FS) (p : String) : Bool :=
  match fs.output with
  | none => false
  | some files => files.any (fun f => entryPath f == p)

/-- `fs.unlinkSync(videoPath)`: removes the file, or throws (`ENOENT`)
when it does not exist. -/
def unlinkSync (fs : FS) (p : String) : Except String FS :=
  match fs.output with
  | none => Except.error "ENOENT"
  | some files =>
      if files.any (fun f => entryPath f == p) then
        Except.ok ⟨some (files.filter (fun f => !(entryPath f == p)))⟩
      else Except.error "ENOENT"

/-- `deleteVideo(videoPath)` of `scheduler.js`: delete the file only if it
exists (`if (fs.existsSync(videoPath)) fs.unlinkSync(videoPath)`). -/
def deleteVideo (fs : FS) (p : String) : Except String FS :=
  if existsSync fs p then unlinkSync fs p else Except.ok fs

/-- The filesystem after all entries at path `p` are removed. -/
def afterDelete (fs : FS) (p : String) : FS :=
  ⟨fs.output.map (fun files => files.filter (fun f => !(entryPath f == p)))⟩

theorem deleteVideo_eq (fs : FS) (p : String) :
    deleteVideo fs p = Except.ok (afterDelete fs p) := by
  rcases fs with ⟨_ | files⟩
  · rfl
  · by_cases h : files.any (fun f => entryPath f == p) = true
    · simp [deleteVideo, existsSync, unlinkSync, afterDelete, h]
    · have hb : files.any (fun f => entryPath f == p) = false := by
        revert h; cases files.any (fun f => entryPath f == p) <;> simp
      have hfil : files.filter (fun f => !(entryPath f == p)) = files := by
        rw [List.filter_eq_self]
        intro f hf
        have h' := List.any_eq_false.mp hb f hf
        revert h'; cases entryPath f == p <;> simp
      simp [deleteVideo, existsSync, unlinkSync, afterDelete, hb, hfil]

theorem existsSync_afterDelete (fs : FS) (p : String) :
    existsSync (afterDelete fs p) p = false := by
  rcases fs with ⟨_ | files⟩
  · rfl
  · simp only [afterDelete, Option.map_some]
    show (List.filter (fun f => !(entryPath f == p)) files).any (fun f => entryPath f == p) = false
    rw [List.any_eq_false]
    intro f hf
    have hkeep := (List.mem_filter.mp hf).2
    revert hkeep; cases entryPath f == p <;> simp

/-- Claim C9: `deleteVideo` is idempotent — deleting is always reported as
success (never an error), deleting an absent artifact leaves the
filesystem untouched, and a second deletion of the same artifact also
uploadSucceeds without error. -/
theorem deleteVideo_idempotent (fs : FS) (p : String) :
    (deleteVideo fs p).isOk = true ∧
    (existsSync fs p = false → deleteVideo fs p = Except.ok fs) ∧
    (∀ fs2, deleteVideo fs p = Except.ok fs2 → deleteVideo fs2 p = Except.ok fs2) := by
  refine ⟨by rw [deleteVideo_eq]; rfl, ?_, ?_⟩
  · intro h
    unfold deleteVideo
    rw [h]
    simp
  · intro fs2 h
    rw [deleteVideo_eq] at h
    have h2 : fs2 = afterDelete fs p := by
      cases h
      rfl
    unfold deleteVideo
    rw [h2, existsSync_afterDelete]
    simp

theorem deleteVideo_idempotent_witness :
    deleteVideo (FS.mk (some [])) "output/a.mp4" = Except.ok (FS.mk (some [])) :=
  (deleteVideo_idempotent (FS.mk (some [FileEntry.mk "a.mp4" 0])) "output/a.mp4").2.2
    (FS.mk (some [])) rfl

/-! ### Queue filtering (claim C8) -/

theorem mem_getPendingVideos (fs : FS) (p : String) :
    p ∈ getPendingVideos fs ↔
      ∃ files, fs.output = some files ∧
        ∃ f ∈ files, jsEndsWith f.name ".mp4" = true ∧ entryPath f = p := by
  rcases fs with ⟨_ | files⟩
  · simp [getPendingVideos]
  · unfold getPendingVideos
    simp only [List.mem_map, Option.some.injEq]
    constructor
    · rintro ⟨f, hf, hp⟩
      have hf' := (List.perm_insertionSort (fun a b : FileEntry => a.mtime ≤ b.mtime) (files.filter (fun f => jsEndsWith f.name ".mp4"))).mem_iff.mp hf
      rcases List.mem_filter.mp hf' with ⟨hmem, hmp4⟩
      exact ⟨files, rfl, f, hmem, hmp4, hp⟩
    · rintro ⟨files', hfe, f, hmem, hmp4, hp⟩
      cases hfe
      refine ⟨f, ?_, hp⟩
      exact (List.perm_insertionSort (fun a b : FileEntry => a.mtime ≤ b.mtime) (files.filter (fun f => jsEndsWith f.name ".mp4"))).mem_iff.mpr
        (List.mem_filter.mpr ⟨hmem, hmp4⟩)

/-- Claim C8, counterexample: a hidden entry `.hidden.mp4` (name beginning
with a dot) whose name nevertheless ends with the video marker is returned
by `getPendingVideos` — hidden entries are not excluded. -/
theorem getPendingVideos_hidden_cex :
    jsStartsWith ".hidden.mp4" "." = true ∧
    getPendingVideos (FS.mk (some [FileEntry.mk ".hidden.mp4" 0])) =
      [joinPath outputDir ".hidden.mp4"] :=
  ⟨by decide, by decide⟩

/-- Claim C8 as amended: `getPendingVideos` returns exactly the entries of
the storage location whose name ends with the recognized video marker
`.mp4` (each joined onto the output directory); no entry is excluded for
being hidden — a dot-prefixed name ending in `.mp4` is returned. -/
theorem getPendingVideos_exactly_mp4 (fs : FS) (p : String) :
    p ∈ getPendingVideos fs ↔
      ∃ files, fs.output = some files ∧
        ∃ f ∈ files, jsEndsWith f.name ".mp4" = true ∧ entryPath f = p :=
  mem_getPendingVideos fs p

/-! ### The upload orchestrator -/

/-- The per-item outcome record pushed into `results` by
`uploadAllPending`: a dry-run pairing `{videoPath, scheduledFor, dryRun:
true}`, a success `{success: true, videoId, .., videoPath, scheduledFor}`,
or a failure `{success: false, error, videoPath}`. -/
inductive PublishResult where
  | dry (videoPath : String) (scheduledFor : Nat)
  | ok (videoPath : String) (videoId : String) (scheduledFor : Nat)
  | failed (videoPath : String) (message : String)
deriving DecidableEq, Repr

/-- `r.success` is truthy exactly on success records. -/
def isFailure : PublishResult → Bool
  | PublishResult.failed _ _ => true
  | _ => false

/-- The result record `uploadAllPending` produces for one pending item
`pt = (videoPath, publishTime)` in a live run, given the external
uploader's outcome. -/
def publishOutcome (uploadVideo : String → Nat → Except String String)
    (pt : String × Nat) : PublishResult :=
  match uploadVideo pt.1 pt.2 with
  | Except.ok videoId => PublishResult.ok pt.1 videoId pt.2
  | Except.error msg => PublishResult.failed pt.1 msg

/-- One iteration of the live upload loop of `uploadAllPending`, acting on
the accumulator `(results, filesystem, upload calls so far)`:
`try { result = await uploader.uploadVideo(videoPath, ..); results.push(ok);
deleteVideo(videoPath); } catch (error) { results.push(failure); }`. -/
def uploadStep (uploadVideo : String → Nat → Except String String)
    (acc : List PublishResult × FS × List String) (pt : String × Nat) :
    List PublishResult × FS × List String :=
  match uploadVideo pt.1 pt.2 with
  | Except.ok videoId =>
      match deleteVideo acc.2.1 pt.1 with
      | Except.ok fs2 =>
          (acc.1 ++ [PublishResult.ok pt.1 videoId pt.2], fs2, acc.2.2 ++ [pt.1])
      | Except.error msg =>
          (acc.1 ++ [PublishResult.ok pt.1 videoId pt.2, PublishResult.failed pt.1 msg],
            acc.2.1, acc.2.2 ++ [pt.1])
  | Except.error msg =>
      (acc.1 ++ [PublishResult.failed pt.1 msg], acc.2.1, acc.2.2 ++ [pt.1])

/-- `uploadAllPending({dryRun})` of `scheduler.js`.  The external publish
capability `uploader.uploadVideo(videoPath, {privacyStatus: 'private',
publishAt})` is an oracle mapping the call's arguments to a video id or a
thrown error; the returned triple is `(results, final filesystem, paths
passed to the external uploader)`. -/
def uploadAllPending (fs : FS) (uploadVideo : String → Nat → Except String String)
    (dryRun : Bool) (now : Nat) : List PublishResult × FS × List String :=
  let pendingVideos := getPendingVideos fs
  if pendingVideos.length = 0 then ([], fs, [])
  else
    let schedule := calculateSchedule pendingVideos.length now
    if dryRun then
      ((pendingVideos.zip schedule).map (fun pt => PublishResult.dry pt.1 pt.2), fs, [])
    else
      (pendingVideos.zip schedule).foldl (uploadStep uploadVideo) ([], fs, [])

/-! ### Dry-run purity (claim C6) -/

/-- Claim C6: a dry run never invokes the external publish capability (the
call log is empty), never mutates the queue (the filesystem is returned
unchanged), and returns exactly one status-free `dry` pairing per pending
artifact, matching it with its computed slot. -/
theorem uploadAllPending_dryRun_pure (fs : FS)
    (uploadVideo : String → Nat → Except String String) (now : Nat) :
    uploadAllPending fs uploadVideo true now =
      (((getPendingVideos fs).zip
          (calculateSchedule (getPendingVideos fs).length now)).map
        (fun pt => PublishResult.dry pt.1 pt.2), fs, []) := by
  unfold uploadAllPending
  by_cases h : (getPendingVideos fs).length = 0
  · rw [if_pos h]
    rw [List.length_eq_zero.mp h]
    rfl
  · rw [if_neg h, if_pos rfl]

/-! ### Empty queue is not an error (claim C7) -/

/-- Claim C7: `getPendingVideos` on a non-existent storage location
returns the empty list rather than an error, and `uploadAllPending` over
an empty queue returns an empty result list (touching nothing and calling
no external capability) rather than failing. -/
theorem queue_empty_not_error (fs : FS)
    (uploadVideo : String → Nat → Except String String) (dryRun : Bool) (now : Nat) :
    getPendingVideos (FS.mk none) = [] ∧
    (getPendingVideos fs = [] →
      uploadAllPending fs uploadVideo dryRun now = ([], fs, [])) := by
  refine ⟨rfl, ?_⟩
  intro h
  unfold uploadAllPending
  rw [h]
  rfl

theorem queue_empty_not_error_witness :
    uploadAllPending (FS.mk none) (fun _ _ => Except.error "quotaExceeded") false 0 =
      ([], FS.mk none, []) :=
  (queue_empty_not_error (FS.mk none) (fun _ _ => Except.error "quotaExceeded") false 0).2 rfl

/-! ### Characterizing the live run -/

/-- The filesystem effect of one live-loop iteration: the artifact is
removed on success and kept on failure. -/
def stepFS (uploadVideo : String → Nat → Except String String) (fs : FS)
    (pt : String × Nat) : FS :=
  match uploadVideo pt.1 pt.2 with
  | Except.ok _ => afterDelete fs pt.1
  | Except.error _ => fs

/-- Whether the external uploader accepts the call for pair `pt`. -/
def uploadSucceeds (uploadVideo : String → Nat → Except String String)
    (pt : String × Nat) : Bool :=
  match uploadVideo pt.1 pt.2 with
  | Except.ok _ => true
  | Except.error _ => false

theorem uploadStep_eq (uploadVideo : String → Nat → Except String String)
    (acc : List PublishResult × FS × List String) (pt : String × Nat) :
    uploadStep uploadVideo acc pt =
      (acc.1 ++ [publishOutcome uploadVideo pt], stepFS uploadVideo acc.2.1 pt,
        acc.2.2 ++ [pt.1]) := by
  unfold uploadStep publishOutcome stepFS
  cases hu : uploadVideo pt.1 pt.2 with
  | ok v => rw [deleteVideo_eq]
  | error e => rfl

theorem foldl_uploadStep (uploadVideo : String → Nat → Except String String)
    (pts : List (String × Nat)) :
    ∀ r0 fs0 c0, pts.foldl (uploadStep uploadVideo) (r0, fs0, c0) =
      (r0 ++ pts.map (publishOutcome uploadVideo),
        pts.foldl (stepFS uploadVideo) fs0,
        c0 ++ pts.map Prod.fst) := by
  induction pts with
  | nil => intro r0 fs0 c0; simp
  | cons pt pts ih =>
      intro r0 fs0 c0
      rw [List.foldl_cons, List.foldl_cons, uploadStep_eq, ih]
      simp

theorem foldl_stepFS_none (uploadVideo : String → Nat → Except String String)
    (pts : List (String × Nat)) :
    pts.foldl (stepFS uploadVideo) (FS.mk none) = FS.mk none := by
  induction pts with
  | nil => rfl
  | cons pt pts ih =>
      rw [List.foldl_cons]
      have h : stepFS uploadVideo (FS.mk none) pt = FS.mk none := by
        cases hu : uploadVideo pt.1 pt.2 with
        | ok v => simp [stepFS, afterDelete, hu]
        | error e => simp [stepFS, hu]
      rw [h, ih]

/-- Entries that survive the live loop: those never deleted by a
successful upload of their own path. -/
def keptAfter (uploadVideo : String → Nat → Except String String)
    (pts : List (String × Nat)) (f : FileEntry) : Bool :=
  !(pts.any (fun pt => uploadSucceeds uploadVideo pt && (entryPath f == pt.1)))

theorem foldl_stepFS_some (uploadVideo : String → Nat → Except String String)
    (pts : List (String × Nat)) (files : List FileEntry) :
    pts.foldl (stepFS uploadVideo) (FS.mk (some files)) =
      FS.mk (some (files.filter (keptAfter uploadVideo pts))) := by
  induction pts generalizing files with
  | nil =>
      have h : files.filter (keptAfter uploadVideo []) = files := by
        rw [List.filter_eq_self]
        intro f _
        rfl
      rw [List.foldl_nil, h]
  | cons pt pts ih =>
      rw [List.foldl_cons]
      cases hu : uploadVideo pt.1 pt.2 with
      | ok v =>
          have hstep : stepFS uploadVideo (FS.mk (some files)) pt =
              FS.mk (some (files.filter (fun f => !(entryPath f == pt.1)))) := by
            simp [stepFS, afterDelete, hu]
          rw [hstep, ih, List.filter_filter]
          have hpred : ∀ f ∈ files,
              (keptAfter uploadVideo pts f && !(entryPath f == pt.1)) =
                keptAfter uploadVideo (pt :: pts) f := by
            intro f _
            unfold keptAfter
            rw [List.any_cons]
            have hs : uploadSucceeds uploadVideo pt = true := by simp [uploadSucceeds, hu]
            rw [hs]
            cases entryPath f == pt.1 <;>
              cases pts.any (fun pt' => uploadSucceeds uploadVideo pt' && (entryPath f == pt'.1)) <;>
                simp
          rw [List.filter_congr hpred]
      | error e =>
          have hstep : stepFS uploadVideo (FS.mk (some files)) pt = FS.mk (some files) := by
            simp [stepFS, hu]
          rw [hstep, ih]
          have hpred : ∀ f ∈ files,
              keptAfter uploadVideo pts f = keptAfter uploadVideo (pt :: pts) f := by
            intro f _
            unfold keptAfter
            rw [List.any_cons]
            have hs : uploadSucceeds uploadVideo pt = false := by simp [uploadSucceeds, hu]
            rw [hs]
            simp
          rw [List.filter_congr hpred]

/-- The artifact/slot pairing of a run (`pendingVideos[i]` with
`schedule[i]`). -/
def pendingPairs (fs : FS) (now : Nat) : List (String × Nat) :=
  (getPendingVideos fs).zip (calculateSchedule (getPendingVideos fs).length now)

theorem map_fst_pendingPairs (fs : FS) (now : Nat) :
    (pendingPairs fs now).map Prod.fst = getPendingVideos fs := by
  unfold pendingPairs
  exact List.map_fst_zip _ _ (by rw [calculateSchedule_length])

theorem length_pendingPairs (fs : FS) (now : Nat) :
    (pendingPairs fs now).length = (getPendingVideos fs).length := by
  unfold pendingPairs
  rw [List.length_zip, calculateSchedule_length, Nat.min_self]

/-- A live `uploadAllPending` run in closed form: one `publishOutcome`
result per pending pair, the filesystem folded through `stepFS`, and one
external upload call per pending artifact. -/
theorem uploadAllPending_live_eq (fs : FS)
    (uploadVideo : String → Nat → Except String String) (now : Nat) :
    uploadAllPending fs uploadVideo false now =
      ((pendingPairs fs now).map (publishOutcome uploadVideo),
        (pendingPairs fs now).foldl (stepFS uploadVideo) fs,
        (pendingPairs fs now).map Prod.fst) := by
  unfold uploadAllPending pendingPairs
  by_cases h : (getPendingVideos fs).length = 0
  · rw [if_pos h, List.length_eq_zero.mp h]
    rfl
  · rw [if_neg h, if_neg Bool.false_ne_true, foldl_uploadStep]
    simp


theorem failed_mem_iff (u : String → Nat → Except String String)
    (pts : List (String × Nat)) (p e : String) :
    PublishResult.failed p e ∈ pts.map (publishOutcome u) ↔
      ∃ t, (p, t) ∈ pts ∧ u p t = Except.error e := by
  rw [List.mem_map]
  constructor
  · rintro ⟨pt, hmem, hpo⟩
    unfold publishOutcome at hpo
    cases hu : u pt.1 pt.2 with
    | ok v => rw [hu] at hpo; cases hpo
    | error msg =>
        rw [hu] at hpo
        injection hpo with h1 h2
        refine ⟨pt.2, ?_, ?_⟩
        · rw [← h1]
          simpa using hmem
        · rw [h1, h2] at hu
          exact hu
  · rintro ⟨t, hmem, hu⟩
    exact ⟨(p, t), hmem, by simp [publishOutcome, hu]⟩

theorem nodup_fst_snd_unique {l : List (String × Nat)}
    (h : (l.map Prod.fst).Nodup) {a : String} {b c : Nat}
    (h1 : (a, b) ∈ l) (h2 : (a, c) ∈ l) : b = c := by
  induction l with
  | nil => cases h1
  | cons x l ih =>
      rw [List.map_cons, List.nodup_cons] at h
      rcases List.mem_cons.mp h1 with h1' | h1' <;>
        rcases List.mem_cons.mp h2 with h2' | h2'
      · exact congrArg Prod.snd (h1'.trans h2'.symm)
      · exfalso
        apply h.1
        rw [← h1']
        exact List.mem_map.mpr ⟨(a, c), h2', rfl⟩
      · exfalso
        apply h.1
        rw [← h2']
        exact List.mem_map.mpr ⟨(a, b), h1', rfl⟩
      · exact ih h.2 h1' h2'

theorem getPendingVideos_perm (files : List FileEntry) :
    (getPendingVideos (FS.mk (some files))).Perm
      ((files.filter (fun f => jsEndsWith f.name ".mp4")).map entryPath) := by
  unfold getPendingVideos
  exact (List.perm_insertionSort (fun a b : FileEntry => a.mtime ≤ b.mtime)
    (files.filter (fun f => jsEndsWith f.name ".mp4"))).map entryPath

/-- Removing entries from the directory can only shrink the pending list,
and preserves its freedom from duplicates. -/
theorem getPendingVideos_filter_nodup (files : List FileEntry) (q : FileEntry → Bool)
    (hnd : (getPendingVideos (FS.mk (some files))).Nodup) :
    (getPendingVideos (FS.mk (some (files.filter q)))).Nodup := by
  have h0 : ((files.filter (fun f => jsEndsWith f.name ".mp4")).map entryPath).Nodup :=
    ((getPendingVideos_perm files).nodup_iff).mp hnd
  have hsub : ((files.filter q).filter (fun f => jsEndsWith f.name ".mp4")).Sublist
      (files.filter (fun f => jsEndsWith f.name ".mp4")) :=
    List.Sublist.filter _ (List.filter_sublist files)
  have h1 : (((files.filter q).filter (fun f => jsEndsWith f.name ".mp4")).map entryPath).Nodup :=
    List.Nodup.sublist (hsub.map entryPath) h0
  exact ((getPendingVideos_perm (files.filter q)).nodup_iff).mpr h1

/-- The master characterization of the post-run queue of a live run: a
path is still pending afterwards exactly when the run recorded a failure
result for it. -/
theorem live_queue_iff (u : String → Nat → Except String String) (now : Nat)
    (fs : FS) (hnd : (getPendingVideos fs).Nodup) (p : String) :
    p ∈ getPendingVideos ((pendingPairs fs now).foldl (stepFS u) fs) ↔
      ∃ e, PublishResult.failed p e ∈ (pendingPairs fs now).map (publishOutcome u) := by
  have hfst : (pendingPairs fs now).map Prod.fst = getPendingVideos fs :=
    map_fst_pendingPairs fs now
  rcases fs with ⟨_ | files⟩
  · rw [foldl_stepFS_none]
    constructor
    · intro hp
      cases hp
    · rintro ⟨e, hmem⟩
      rcases List.mem_map.mp hmem with ⟨pt, hpt, _⟩
      have : pt.1 ∈ (pendingPairs (FS.mk none) now).map Prod.fst :=
        List.mem_map.mpr ⟨pt, hpt, rfl⟩
      rw [hfst] at this
      cases this
  · rw [foldl_stepFS_some]
    constructor
    · intro hp
      rcases (mem_getPendingVideos _ p).mp hp with ⟨files', hout, f, hf, hmp4, hpath⟩
      have hfe : files' = files.filter (keptAfter u (pendingPairs (FS.mk (some files)) now)) := by
        injection hout with h
        exact h.symm
      rw [hfe] at hf
      rcases List.mem_filter.mp hf with ⟨hmemf, hkept⟩
      have hpend : p ∈ getPendingVideos (FS.mk (some files)) :=
        (mem_getPendingVideos _ p).mpr ⟨files, rfl, f, hmemf, hmp4, hpath⟩
      rw [← hfst] at hpend
      rcases List.mem_map.mp hpend with ⟨pt, hpt, hpt1⟩
      cases hu : u p pt.2 with
      | ok v =>
          exfalso
          unfold keptAfter at hkept
          have hany := hkept
          rw [Bool.not_eq_true'] at hany
          have := List.any_eq_false.mp hany pt hpt
          apply this
          rw [Bool.and_eq_true]
          constructor
          · rw [uploadSucceeds, hpt1, hu]
          · rw [hpath, hpt1]
            exact beq_self_eq_true p
      | error e =>
          refine ⟨e, (failed_mem_iff u _ p e).mpr ⟨pt.2, ?_, hu⟩⟩
          have : (pt.1, pt.2) = pt := rfl
          rw [← hpt1]
          rw [this]
          exact hpt
    · rintro ⟨e, hmem⟩
      rcases (failed_mem_iff u _ p e).mp hmem with ⟨t, hpt, hu⟩
      have hpend : p ∈ getPendingVideos (FS.mk (some files)) := by
        rw [← hfst]
        exact List.mem_map.mpr ⟨(p, t), hpt, rfl⟩
      rcases (mem_getPendingVideos _ p).mp hpend with ⟨files', hout, f, hf, hmp4, hpath⟩
      have hfe : files' = files := by
        injection hout with h
        exact h.symm
      rw [hfe] at hf
      have hndfst : ((pendingPairs (FS.mk (some files)) now).map Prod.fst).Nodup := by
        rw [hfst]
        exact hnd
      have hkept : keptAfter u (pendingPairs (FS.mk (some files)) now) f = true := by
        unfold keptAfter
        rw [Bool.not_eq_true']
        rw [List.any_eq_false]
        intro pt' hpt'
        intro hcontra
        rw [Bool.and_eq_true] at hcontra
        rcases hcontra with ⟨hsucc, hbeq⟩
        have hpeq : pt'.1 = p := by
          have := eq_of_beq hbeq
          rw [← this, hpath]
        have hmem' : (p, pt'.2) ∈ pendingPairs (FS.mk (some files)) now := by
          rw [← hpeq]
          simpa using hpt'
        have ht : pt'.2 = t := nodup_fst_snd_unique hndfst hmem' hpt
        rw [uploadSucceeds, hpeq, ht, hu] at hsucc
        cases hsucc
      refine (mem_getPendingVideos _ p).mpr ⟨_, rfl, f, ?_, hmp4, hpath⟩
      exact List.mem_filter.mpr ⟨hf, hkept⟩

/-- The paths of the failure results of a live run over pairs `pts`. -/
def failedPathsOf (u : String → Nat → Except String String)
    (pts : List (String × Nat)) : List String :=
  pts.filterMap (fun pt => match u pt.1 pt.2 with
    | Except.ok _ => none
    | Except.error _ => some pt.1)

theorem failedPathsOf_cons_ok (u : String → Nat → Except String String)
    (pts : List (String × Nat)) (pt : String × Nat) (v : String)
    (hu : u pt.1 pt.2 = Except.ok v) :
    failedPathsOf u (pt :: pts) = failedPathsOf u pts := by
  unfold failedPathsOf
  rw [List.filterMap_cons]
  simp [hu]

theorem failedPathsOf_cons_error (u : String → Nat → Except String String)
    (pts : List (String × Nat)) (pt : String × Nat) (e : String)
    (hu : u pt.1 pt.2 = Except.error e) :
    failedPathsOf u (pt :: pts) = pt.1 :: failedPathsOf u pts := by
  unfold failedPathsOf
  rw [List.filterMap_cons]
  simp [hu]

theorem length_filter_isFailure (u : String → Nat → Except String String)
    (pts : List (String × Nat)) :
    ((pts.map (publishOutcome u)).filter isFailure).length =
      (failedPathsOf u pts).length := by
  induction pts with
  | nil => rfl
  | cons pt pts ih =>
      rw [List.map_cons]
      cases hu : u pt.1 pt.2 with
      | ok v =>
          rw [failedPathsOf_cons_ok u pts pt v hu]
          have h1 : isFailure (publishOutcome u pt) = false := by
            simp [publishOutcome, isFailure, hu]
          rw [List.filter_cons, h1]
          simpa using ih
      | error e =>
          rw [failedPathsOf_cons_error u pts pt e hu]
          have h1 : isFailure (publishOutcome u pt) = true := by
            simp [publishOutcome, isFailure, hu]
          rw [List.filter_cons, h1]
          simpa using ih

theorem failedPathsOf_sublist (u : String → Nat → Except String String)
    (pts : List (String × Nat)) :
    (failedPathsOf u pts).Sublist (pts.map Prod.fst) := by
  induction pts with
  | nil => exact List.Sublist.refl _
  | cons pt pts ih =>
      rw [List.map_cons]
      cases hu : u pt.1 pt.2 with
      | ok v =>
          rw [failedPathsOf_cons_ok u pts pt v hu]
          exact ih.cons _
      | error e =>
          rw [failedPathsOf_cons_error u pts pt e hu]
          exact ih.cons₂ _

theorem mem_failedPathsOf (u : String → Nat → Except String String)
    (pts : List (String × Nat)) (q : String) :
    q ∈ failedPathsOf u pts ↔ ∃ t, (q, t) ∈ pts ∧ ∃ e, u q t = Except.error e := by
  unfold failedPathsOf
  rw [List.mem_filterMap]
  constructor
  · rintro ⟨pt, hpt, hsome⟩
    cases hu : u pt.1 pt.2 with
    | ok v => rw [hu] at hsome; cases hsome
    | error e =>
        rw [hu] at hsome
        injection hsome with h1
        refine ⟨pt.2, ?_, e, ?_⟩
        · rw [← h1]
          simpa using hpt
        · rw [h1] at hu
          exact hu
  · rintro ⟨t, hpt, e, hu⟩
    exact ⟨(q, t), hpt, by simp [hu]⟩

theorem mem_failedPathsOf_iff_result (u : String → Nat → Except String String)
    (pts : List (String × Nat)) (p : String) :
    p ∈ failedPathsOf u pts ↔
      ∃ e, PublishResult.failed p e ∈ pts.map (publishOutcome u) := by
  rw [mem_failedPathsOf]
  constructor
  · rintro ⟨t, hpt, e, hu⟩
    exact ⟨e, (failed_mem_iff u pts p e).mpr ⟨t, hpt, hu⟩⟩
  · rintro ⟨e, hm⟩
    rcases (failed_mem_iff u pts p e).mp hm with ⟨t, hpt, hu⟩
    exact ⟨t, hpt, e, hu⟩

/-! ### Queue post-condition of a live run (claim C1) -/

/-- Claim C1: after a live `uploadAllPending` run over a duplicate-free
queue, the paths still pending are exactly those with a recorded failure
result (successfully published artifacts are removed, failed ones are
retained), the post-run queue is still duplicate-free (no artifact is
duplicated), and its size equals the number of failure results of the run
(no artifact is dropped without a recorded success). -/
theorem uploadAllPending_queue_postcondition (fs : FS)
    (uploadVideo : String → Nat → Except String String) (now : Nat)
    (hnd : (getPendingVideos fs).Nodup) :
    (∀ p, p ∈ getPendingVideos (uploadAllPending fs uploadVideo false now).2.1 ↔
        ∃ e, PublishResult.failed p e ∈ (uploadAllPending fs uploadVideo false now).1) ∧
    (getPendingVideos (uploadAllPending fs uploadVideo false now).2.1).Nodup ∧
    (getPendingVideos (uploadAllPending fs uploadVideo false now).2.1).length =
      ((uploadAllPending fs uploadVideo false now).1.filter isFailure).length := by
  rw [uploadAllPending_live_eq]
  have hiff : ∀ p,
      p ∈ getPendingVideos ((pendingPairs fs now).foldl (stepFS uploadVideo) fs) ↔
        ∃ e, PublishResult.failed p e ∈
          (pendingPairs fs now).map (publishOutcome uploadVideo) :=
    live_queue_iff uploadVideo now fs hnd
  have hndafter : (getPendingVideos
      ((pendingPairs fs now).foldl (stepFS uploadVideo) fs)).Nodup := by
    rcases hout : fs.output with _ | files
    · have hfs : fs = FS.mk none := by
        rcases fs with ⟨o⟩
        cases hout
        rfl
      rw [hfs, foldl_stepFS_none]
      exact List.nodup_nil
    · have hfs : fs = FS.mk (some files) := by
        rcases fs with ⟨o⟩
        cases hout
        rfl
      rw [hfs, foldl_stepFS_some]
      rw [hfs] at hnd
      exact getPendingVideos_filter_nodup files _ hnd
  have hndfailed : (failedPathsOf uploadVideo (pendingPairs fs now)).Nodup := by
    apply List.Nodup.sublist (failedPathsOf_sublist uploadVideo (pendingPairs fs now))
    rw [map_fst_pendingPairs]
    exact hnd
  have hext : ∀ a, a ∈ getPendingVideos
      ((pendingPairs fs now).foldl (stepFS uploadVideo) fs) ↔
        a ∈ failedPathsOf uploadVideo (pendingPairs fs now) := by
    intro a
    rw [hiff a, mem_failedPathsOf_iff_result]
  have hperm := (List.perm_ext_iff_of_nodup hndafter hndfailed).mpr hext
  refine ⟨hiff, hndafter, ?_⟩
  show (getPendingVideos ((pendingPairs fs now).foldl (stepFS uploadVideo) fs)).length =
    (((pendingPairs fs now).map (publishOutcome uploadVideo)).filter isFailure).length
  rw [hperm.length_eq, length_filter_isFailure]

theorem uploadAllPending_queue_postcondition_witness :
    (getPendingVideos (uploadAllPending (FS.mk (some [FileEntry.mk "a.mp4" 0]))
        (fun _ _ => Except.error "quotaExceeded") false 0).2.1).Nodup :=
  (uploadAllPending_queue_postcondition (FS.mk (some [FileEntry.mk "a.mp4" 0]))
    (fun _ _ => Except.error "quotaExceeded") 0 (by decide)).2.1

/-! ### One result per artifact, failures isolated (claim C5) -/

/-- Claim C5: a live run produces exactly one result per pending artifact
(the `publishOutcome` of its pair, in order), calls the external uploader
exactly once per artifact — so a per-item failure is caught, converted
into a failure result carrying the error description, and never aborts
the rest of the batch or escapes the orchestrator — and every artifact
with a failure result is still in the queue afterwards. -/
theorem uploadAllPending_one_result_per_item (fs : FS)
    (uploadVideo : String → Nat → Except String String) (now : Nat)
    (hnd : (getPendingVideos fs).Nodup) :
    (uploadAllPending fs uploadVideo false now).1 =
      (pendingPairs fs now).map (publishOutcome uploadVideo) ∧
    (uploadAllPending fs uploadVideo false now).1.length =
      (getPendingVideos fs).length ∧
    (uploadAllPending fs uploadVideo false now).2.2 = getPendingVideos fs ∧
    (∀ p e, PublishResult.failed p e ∈ (uploadAllPending fs uploadVideo false now).1 →
      p ∈ getPendingVideos (uploadAllPending fs uploadVideo false now).2.1) := by
  rw [uploadAllPending_live_eq]
  refine ⟨rfl, ?_, map_fst_pendingPairs fs now, ?_⟩
  · show ((pendingPairs fs now).map (publishOutcome uploadVideo)).length =
      (getPendingVideos fs).length
    rw [List.length_map, length_pendingPairs]
  · intro p e hmem
    exact (live_queue_iff uploadVideo now fs hnd p).mpr ⟨e, hmem⟩

theorem uploadAllPending_one_result_per_item_witness :
    (uploadAllPending (FS.mk (some [FileEntry.mk "b.mp4" 3]))
        (fun _ _ => Except.error "network") false 0).2.2 =
      getPendingVideos (FS.mk (some [FileEntry.mk "b.mp4" 3])) :=
  (uploadAllPending_one_result_per_item (FS.mk (some [FileEntry.mk "b.mp4" 3]))
    (fun _ _ => Except.error "network") 0 (by decide)).2.2.1
